import Mathlib

/-!
Verification development for the dream-job-search backend
(`dream_job_search.py`).  The Python source is shallowly embedded:
each Python function relevant to the checked properties is translated
into an executable Lean definition, and the properties are proved
about those definitions.  Definitions come first, then the proofs.
-/

namespace DreamJobSearch

/-! ## Identity Extractor (`extract_job_id`)

The Python code runs `re.search(r"/view/.*?-(\d{10})/?", url)` and
returns group 1 (the ten digits) or `None`.  `re.search` tries each
start position left to right; at a position where the literal
`/view/` matches, the lazy `.*?` is extended one character at a time
(`.` matches anything except a newline) until a `-` immediately
followed by ten digits is found; the trailing `/?` always succeeds and
does not affect group 1.  `scanDash` embeds the lazy scan after
`/view/`; `searchView` embeds the left-to-right search. -/

/-- The literal characters of `/view/`. -/
def viewTag : List Char := ['/', 'v', 'i', 'e', 'w', '/']

/-- Lazy scan for `-` followed by ten digits, as the regex engine does
for `.*?-(\d{10})` starting right after `/view/`:
at each position, first try to match `-` plus ten digits; otherwise
consume one non-newline character into `.*?` and continue. -/
def scanDash : List Char → Option (List Char)
  | [] => none
  | c :: rest =>
    if c = '-' ∧ 10 ≤ rest.length ∧ (rest.take 10).all Char.isDigit = true then
      some (rest.take 10)
    else if c = '\n' then none
    else scanDash rest

/-- Left-to-right search for a start position whose text begins with
`/view/` and from which the lazy scan succeeds (the semantics of
`re.search` for this pattern). -/
def searchView : List Char → Option (List Char)
  | [] => none
  | c :: rest =>
    if (c :: rest).take 6 = viewTag then
      match scanDash ((c :: rest).drop 6) with
      | some d => some d
      | none => searchView rest
    else searchView rest

/-- `extract_job_id` from `dream_job_search.py`: extract the 10-digit
job ID from a LinkedIn job URL, or `None` when the pattern is absent. -/
def extract_job_id (linkedin_url : String) : Option String :=
  (searchView linkedin_url.data).map String.mk

/-- The shape named by the spec: the string contains
`/view/<anything>-<10 digits>`, where `<anything>` is newline-free
(the regex `.` does not cross newlines). -/
def ShapeIn (s d : List Char) : Prop :=
  ∃ u v t, s = u ++ viewTag ++ v ++ '-' :: (d ++ t) ∧
    d.length = 10 ∧ (∀ c ∈ d, c.isDigit = true) ∧ (∀ c ∈ v, c ≠ '\n')

/-! ## Deduplicator (`filter_by_job_id`)

A batch item is either a bare link string or a record (Python dict)
carrying the link under a designated field; `existing_df[field]` is
modelled as a column lookup returning the list of cell strings. -/

/-- A batch item: a bare URL string or a record (dict). -/
inductive Item where
  | str : String → Item
  | dict : List (String × String) → Item
deriving DecidableEq

/-- First-match association-list lookup (a Python dict holds each key
once, so first match is the dict lookup). -/
def lookupField (kvs : List (String × String)) (k : String) : Option String :=
  match kvs with
  | [] => none
  | (k', v) :: rest => if k' = k then some v else lookupField rest k

/-- `item.get(link_field, "")` for dicts, the item itself for strings. -/
def getItemLink (link_field : String) : Item → String
  | .str s => s
  | .dict kvs => (lookupField kvs link_field).getD ""

/-- A dataset snapshot: column name to list of cell strings
(`existing_df[field].values.tolist()`). -/
structure DataFrame where
  col : String → List String

/-- The job id extracted from an item's link. -/
def idOf (link_field : String) (it : Item) : Option String :=
  extract_job_id (getItemLink link_field it)

/-- The seeding loop of `filter_by_job_id`: every existing link that
yields a job id contributes that id to the working set. -/
def collectIds : List String → List String
  | [] => []
  | l :: rest =>
    match extract_job_id l with
    | some j => j :: collectIds rest
    | none => collectIds rest

/-- The main loop of `filter_by_job_id`: accept an item whose id is
present and unseen (adding the id to the working set); for an item
without an id, accept exactly when a fallback predicate is supplied
and approves it against the original dataset. -/
def filterLoop (link_field : String) (fb : Option (Item → DataFrame → Bool))
    (df : DataFrame) : List Item → List String → List Item
  | [], _ => []
  | item :: rest, seen =>
    match idOf link_field item with
    | some jid =>
      if jid ∈ seen then filterLoop link_field fb df rest seen
      else item :: filterLoop link_field fb df rest (jid :: seen)
    | none =>
      match fb with
      | some f =>
        if f item df then item :: filterLoop link_field fb df rest seen
        else filterLoop link_field fb df rest seen
      | none => filterLoop link_field fb df rest seen

/-- `filter_by_job_id` from `dream_job_search.py`. -/
def filter_by_job_id (new_items : List Item) (existing_df : DataFrame)
    (link_field : String) (fallback_filter_func : Option (Item → DataFrame → Bool)) :
    List Item :=
  filterLoop link_field fallback_filter_func existing_df new_items
    (collectIds (existing_df.col link_field))

/-! ## Detail stage (`scrape_job_postings`)

The stage reads the search and detail (posting) datasets, filters the
search links through the Deduplicator with a link-equality fallback,
and either stops with a "no new work" log line or invokes the detail
feed on the surviving URLs.  Its externally visible behaviour is
modelled as the list of emitted events. -/

/-- The `url_fallback_filter` closure in `scrape_job_postings`:
keep a URL when it does not occur verbatim in the detail dataset's
link column. -/
def url_fallback_filter (it : Item) (df : DataFrame) : Bool :=
  decide (getItemLink "link" it ∉ df.col "link")

/-- Observable events of the detail stage. -/
inductive ScrapeEvent where
  | logStarting
  | logNoNewLinks
  | logFoundUrls (n : Nat)
  | invokeDetailFeed (urls : List Item)
deriving DecidableEq

/-- `scrape_job_postings` from `dream_job_search.py`, as an event
trace over the two dataset snapshots it reads. -/
def scrape_job_postings (job_search_df job_posting_df : DataFrame) :
    List ScrapeEvent :=
  let urls := filter_by_job_id ((job_search_df.col "link").map Item.str)
    job_posting_df "link" (some url_fallback_filter)
  if urls = [] then
    [.logStarting, .logNoNewLinks]
  else
    [.logStarting, .logFoundUrls urls.length, .invokeDetailFeed urls]

/-! ## Pipeline run (`update_database`)

The body of `update_database` executes, inside a single `try`, the
search stage, the detail stage, the two scraper-cleanup calls and a
success log; the `except` clause logs the error message and re-raises.
Each step is modelled by its outcome (`Except String Unit`), and the
function returns the emitted log events plus the final outcome. -/

/-- Observable events of `update_database`. -/
inductive UpdateEvent where
  | logStart
  | logSearching
  | logScraping
  | logCleaning
  | logSuccess
  | logError (msg : String)
deriving DecidableEq

/-- `update_database` from `dream_job_search.py`: run the steps in
order inside one try/except; the except clause logs the error and
re-raises it.  Note the cleanup calls are inside the try block. -/
def update_database (searchStep scrapeStep cleanupSearch cleanupPosting :
    Except String Unit) : List UpdateEvent × Except String Unit :=
  match searchStep with
  | .error e => ([.logStart, .logSearching, .logError e], .error e)
  | .ok _ =>
    match scrapeStep with
    | .error e => ([.logStart, .logSearching, .logScraping, .logError e], .error e)
    | .ok _ =>
      match cleanupSearch with
      | .error e =>
        ([.logStart, .logSearching, .logScraping, .logCleaning, .logError e], .error e)
      | .ok _ =>
        match cleanupPosting with
        | .error e =>
          ([.logStart, .logSearching, .logScraping, .logCleaning, .logError e], .error e)
        | .ok _ =>
          ([.logStart, .logSearching, .logScraping, .logCleaning, .logSuccess], .ok ())

/-! ## Scoring Engine (`score_job_postings`, `find_jobs_by_keywords`)

Python: `matched = [kw for kw in keywords if kw.lower() in desc.lower()]`,
`', '.join(matched) if matched else ""`, and the score is
`len(matched_keywords.split(', '))` when the joined string is nonempty,
else 0.  Substring test, join and split are embedded on `List Char`. -/

/-- Needle-at-head test for character lists. -/
def startsWithL : List Char → List Char → Bool
  | [], _ => true
  | _ :: _, [] => false
  | a :: as, b :: bs => a = b && startsWithL as bs

/-- Python's `needle in hay` substring test. -/
def substrIn (needle : List Char) : List Char → Bool
  | [] => startsWithL needle []
  | c :: rest => startsWithL needle (c :: rest) || substrIn needle rest

/-- Python's `', '.join(parts)`. -/
def joinSep : List (List Char) → List Char
  | [] => []
  | [x] => x
  | x :: y :: rest => x ++ ',' :: ' ' :: joinSep (y :: rest)

/-- Python's `s.split(', ')`: split at each leftmost occurrence of
the two-character separator. -/
def splitSep : List Char → List (List Char)
  | [] => [[]]
  | [c] => [[c]]
  | a :: b :: rest =>
    if a = ',' ∧ b = ' ' then [] :: splitSep rest
    else
      match splitSep (b :: rest) with
      | h :: t => (a :: h) :: t
      | [] => [[a]]

/-- `', '` occurs somewhere in the list. -/
def hasSep (l : List Char) : Bool := substrIn [',', ' '] l

/-- Case-insensitive keyword containment:
`keyword.lower() in job_description.lower()`. -/
def strKwIn (kw desc : String) : Bool :=
  substrIn (kw.data.map Char.toLower) (desc.data.map Char.toLower)

/-- `find_matched_keywords` from `score_job_postings`. -/
def find_matched_keywords (keywords : List String) (job_description : String) :
    String :=
  let matched := keywords.filter (fun k => strKwIn k job_description)
  if matched = [] then "" else String.mk (joinSep (matched.map String.data))

/-- `calculate_score` from `score_job_postings`. -/
def calculate_score (matched_keywords : String) : Nat :=
  if matched_keywords = "" then 0 else (splitSep matched_keywords.data).length

/-- One row of the persisted detail (posting) dataset. -/
structure JobRow where
  link : String
  job_title : String
  job_company : String
  job_location : String
  location : String
  job_description : String
deriving DecidableEq

/-- A row after scoring: the original row plus the two added columns. -/
structure ScoredRow where
  row : JobRow
  matched_keywords : String
  score : Nat
deriving DecidableEq

/-- `score_job_postings` from `dream_job_search.py`: optionally filter
by exact location equality, then add the matched-keywords and score
columns. -/
def score_job_postings (rows : List JobRow) (keywords : List String)
    (location : Option String) : List ScoredRow :=
  let rows : List JobRow := match location with
    | some loc => rows.filter (fun r => r.location = loc)
    | none => rows
  rows.map fun r =>
    let mk := find_matched_keywords keywords r.job_description
    { row := r, matched_keywords := mk, score := calculate_score mk }

/-- One row of the result of `find_jobs_by_keywords` (the selected
columns, in source order). -/
structure ResultRow where
  score : Nat
  matched_keywords : String
  link : String
  job_title : String
  job_company : String
  job_location : String
deriving DecidableEq

/-- Column selection performed by `find_jobs_by_keywords`. -/
def toResultRow (s : ScoredRow) : ResultRow :=
  { score := s.score, matched_keywords := s.matched_keywords,
    link := s.row.link, job_title := s.row.job_title,
    job_company := s.row.job_company, job_location := s.row.job_location }

/-- Descending-score comparison used to model
`sort_values(by="score", ascending=False)` (tie order is unspecified
both in pandas' unstable quicksort and in the spec). -/
def scoreGE (a b : ResultRow) : Prop := b.score ≤ a.score

instance : DecidableRel scoreGE := fun a b => Nat.decLe b.score a.score

instance : IsTotal ResultRow scoreGE := ⟨fun a b => Nat.le_total b.score a.score⟩

instance : IsTrans ResultRow scoreGE := ⟨fun _ _ _ hab hbc => le_trans hbc hab⟩

/-- `find_jobs_by_keywords` from `dream_job_search.py`: score, keep
rows with positive score, select columns, sort by descending score. -/
def find_jobs_by_keywords (rows : List JobRow) (keywords : List String)
    (location : Option String) : List ResultRow :=
  let scored := score_job_postings rows keywords location
  let positive := scored.filter (fun r => decide (0 < r.score))
  List.insertionSort scoreGE (positive.map toResultRow)

/-! ## Concrete test data (used by witnesses) -/

/-- A small batch: two items sharing identity 1234567890 and one whose
identity 0000000000 already occurs in the existing dataset. -/
def demoItems : List Item :=
  [.str "https://x/view/x-1234567890",
   .str "https://x/view/y-1234567890",
   .str "https://x/view/z-0000000000"]

/-- An existing dataset whose link column holds one link with
identity 0000000000. -/
def demoDf : DataFrame :=
  ⟨fun f => if f = "link" then ["https://x/view/w-0000000000"] else []⟩

/-- The record of the spec's scoring example. -/
def exampleRow : JobRow :=
  ⟨"link1", "title1", "company1", "jloc1", "loc1",
   "seeking a python and react developer"⟩

/-- A second record matching none of the example keywords. -/
def exampleRow2 : JobRow :=
  ⟨"link2", "title2", "company2", "jloc2", "loc1", "nothing relevant"⟩

/-! ## Proofs -/

example : extract_job_id "https://www.linkedin.com/jobs/view/software-engineer-1234567890/" =
    some "1234567890" := by decide
example : extract_job_id "https://www.linkedin.com/jobs/view/eng-123456789" = none := by decide
example : extract_job_id "" = none := by decide
example : extract_job_id "/view/-0123456789" = some "0123456789" := by decide
example : extract_job_id "/view/a-12b-1234567890" = some "1234567890" := by decide

lemma scanDash_sound {l d : List Char} (h : scanDash l = some d) :
    ∃ v t, l = v ++ '-' :: (d ++ t) ∧ (∀ c ∈ v, c ≠ '\n') ∧
      d.length = 10 ∧ (∀ c ∈ d, c.isDigit = true) := by
  induction l with
  | nil => simp [scanDash] at h
  | cons c rest ih =>
    rw [scanDash] at h
    by_cases h1 : c = '-' ∧ 10 ≤ rest.length ∧ (rest.take 10).all Char.isDigit = true
    · rw [if_pos h1] at h
      obtain ⟨hc, hlen, hdig⟩ := h1
      obtain rfl : rest.take 10 = d := by simpa using h
      refine ⟨[], rest.drop 10, ?_, by simp, ?_, ?_⟩
      · simp [hc, List.take_append_drop]
      · simp [List.length_take]; omega
      · intro x hx
        have := List.all_eq_true.mp hdig x hx
        simpa using this
    · rw [if_neg h1] at h
      by_cases h2 : c = '\n'
      · rw [if_pos h2] at h
        exact absurd h (by simp)
      · rw [if_neg h2] at h
        obtain ⟨v, t, hvt, hv, hlen, hdig⟩ := ih h
        refine ⟨c :: v, t, by simp [hvt], ?_, hlen, hdig⟩
        intro x hx
        rcases List.mem_cons.mp hx with rfl | hx
        · exact h2
        · exact hv x hx

lemma scanDash_complete (v d t : List Char) (hv : ∀ c ∈ v, c ≠ '\n')
    (hlen : d.length = 10) (hdig : ∀ c ∈ d, c.isDigit = true) :
    ∃ d', scanDash (v ++ '-' :: (d ++ t)) = some d' := by
  induction v with
  | nil =>
    refine ⟨d, ?_⟩
    rw [List.nil_append, scanDash, if_pos]
    · rw [List.take_left' hlen]
    · refine ⟨rfl, ?_, ?_⟩
      · simp [hlen]
      · rw [List.take_left' hlen]
        exact List.all_eq_true.mpr fun x hx => hdig x hx
  | cons c v' ih =>
    have hc : c ≠ '\n' := hv c (List.mem_cons_self c v')
    have ih' := ih fun x hx => hv x (List.mem_cons_of_mem c hx)
    rw [List.cons_append, scanDash]
    by_cases h1 : c = '-' ∧ 10 ≤ (v' ++ '-' :: (d ++ t)).length ∧
        ((v' ++ '-' :: (d ++ t)).take 10).all Char.isDigit = true
    · rw [if_pos h1]
      exact ⟨_, rfl⟩
    · rw [if_neg h1, if_neg hc]
      exact ih'

lemma searchView_sound {s d : List Char} (h : searchView s = some d) :
    ∃ u tl, s = u ++ viewTag ++ tl ∧ scanDash tl = some d := by
  induction s with
  | nil => simp [searchView] at h
  | cons c rest ih =>
    rw [searchView] at h
    split_ifs at h with h1
    · rcases hscan : scanDash ((c :: rest).drop 6) with _ | d'
      · rw [hscan] at h
        obtain ⟨u, tl, hs, hsc⟩ := ih h
        exact ⟨c :: u, tl, by simp [hs], hsc⟩
      · rw [hscan] at h
        obtain rfl : d' = d := by simpa using h
        refine ⟨[], (c :: rest).drop 6, ?_, hscan⟩
        rw [List.nil_append, ← h1, List.take_append_drop]
    · obtain ⟨u, tl, hs, hsc⟩ := ih h
      exact ⟨c :: u, tl, by simp [hs], hsc⟩

lemma searchView_complete {s : List Char} (u tl : List Char)
    (hs : s = u ++ viewTag ++ tl) (h : ∃ d, scanDash tl = some d) :
    ∃ d', searchView s = some d' := by
  induction u generalizing s with
  | nil =>
    obtain ⟨d, hd⟩ := h
    subst hs
    rw [List.nil_append]
    have htake : (viewTag ++ tl).take 6 = viewTag := List.take_left' rfl
    have hdrop : (viewTag ++ tl).drop 6 = tl := List.drop_left viewTag tl
    rw [show viewTag ++ tl = '/' :: ('v' :: 'i' :: 'e' :: 'w' :: '/' :: tl) from rfl]
    rw [searchView]
    rw [show ('/' :: ('v' :: 'i' :: 'e' :: 'w' :: '/' :: tl) : List Char) =
      viewTag ++ tl from rfl]
    rw [if_pos htake, hdrop, hd]
    exact ⟨d, rfl⟩
  | cons c u' ih =>
    subst hs
    rw [List.cons_append, List.cons_append, searchView]
    split_ifs with h1
    · rcases hscan : scanDash ((c :: (u' ++ viewTag ++ tl)).drop 6) with _ | d'
      · simpa [List.append_assoc] using ih rfl
      · exact ⟨d', rfl⟩
    · simpa [List.append_assoc] using ih rfl

lemma extract_sound {s : String} {d : List Char}
    (h : searchView s.data = some d) :
    d.length = 10 ∧ (∀ c ∈ d, c.isDigit = true) ∧ ShapeIn s.data d := by
  obtain ⟨u, tl, hs, hsc⟩ := searchView_sound h
  obtain ⟨v, t, htl, hv, hlen, hdig⟩ := scanDash_sound hsc
  exact ⟨hlen, hdig, u, v, t, by rw [hs, htl]; simp [List.append_assoc], hlen, hdig, hv⟩

lemma extract_complete {s : String} {d : List Char} (h : ShapeIn s.data d) :
    ∃ d', searchView s.data = some d' := by
  obtain ⟨u, v, t, hs, hlen, hdig, hv⟩ := h
  have := scanDash_complete v d t hv hlen hdig
  exact searchView_complete u (v ++ '-' :: (d ++ t))
    (by rw [hs, List.append_assoc]) this

/-- C2: for every link string containing a `/view/<anything>-<10 digits>`
segment (optionally followed by `/`), `extract_job_id` returns a
10-digit identity that itself occurs in such a segment — and exactly
the claimed digits whenever the shape determines them uniquely; for a
string without the shape it returns `none`; the function is total, so
it cannot raise on any input. -/
theorem extract_job_id_spec (s : String) :
    (∀ ds, extract_job_id s = some ds →
      ds.data.length = 10 ∧ (∀ c ∈ ds.data, c.isDigit = true) ∧ ShapeIn s.data ds.data) ∧
    ((∃ d, ShapeIn s.data d) → ∃ ds, extract_job_id s = some ds) ∧
    ((∀ d, ¬ ShapeIn s.data d) → extract_job_id s = none) ∧
    (∀ d, ShapeIn s.data d → (∀ d', ShapeIn s.data d' → d' = d) →
      extract_job_id s = some (String.mk d)) := by
  refine ⟨?_, ?_, ?_, ?_⟩
  · intro ds h
    rcases hsv : searchView s.data with _ | l
    · simp [extract_job_id, hsv] at h
    · have hds : ds = String.mk l := by
        rw [extract_job_id, hsv] at h
        simpa using h.symm
      subst hds
      exact extract_sound hsv
  · rintro ⟨d, hd⟩
    obtain ⟨d', h⟩ := extract_complete hd
    exact ⟨String.mk d', by simp [extract_job_id, h]⟩
  · intro hno
    rcases hsv : searchView s.data with _ | l
    · simp [extract_job_id, hsv]
    · exact absurd (extract_sound hsv).2.2 (hno l)
  · intro d hd huniq
    obtain ⟨d', hsv⟩ := extract_complete hd
    have hshape := (extract_sound hsv).2.2
    have : d' = d := huniq d' hshape
    subst this
    simp [extract_job_id, hsv]

/-- Witness for C2: the shape hypothesis holds for a concrete LinkedIn
URL, and the theorem then produces an extracted identity for it. -/
theorem extract_job_id_spec_witness :
    ∃ ds, extract_job_id
      "https://www.linkedin.com/jobs/view/software-engineer-1234567890/" = some ds :=
  (extract_job_id_spec
      "https://www.linkedin.com/jobs/view/software-engineer-1234567890/").2.1
    ⟨"1234567890".data, "https://www.linkedin.com/jobs".data,
      "software-engineer".data, "/".data, by decide, by decide, by decide, by decide⟩

lemma collectIds_mem {ls : List String} {j : String} :
    j ∈ collectIds ls ↔ ∃ l ∈ ls, extract_job_id l = some j := by
  induction ls with
  | nil => simp [collectIds]
  | cons l rest ih =>
    rw [collectIds]
    rcases hid : extract_job_id l with _ | j'
    · simp only [List.mem_cons]
      rw [ih]
      constructor
      · rintro ⟨x, hx, he⟩
        exact ⟨x, Or.inr hx, he⟩
      · rintro ⟨x, rfl | hx, he⟩
        · exact absurd he (by simp [hid])
        · exact ⟨x, hx, he⟩
    · simp only [List.mem_cons]
      rw [ih]
      constructor
      · rintro (rfl | ⟨x, hx, he⟩)
        · exact ⟨l, Or.inl rfl, hid⟩
        · exact ⟨x, Or.inr hx, he⟩
      · rintro ⟨x, rfl | hx, he⟩
        · rw [hid] at he
          exact Or.inl (by simpa using he.symm)
        · exact Or.inr ⟨x, hx, he⟩

/-- The deduplication relation: the two items never carry the same
extractable identity. -/
def DistinctIds (lf : String) (a b : Item) : Prop :=
  ∀ j, idOf lf a = some j → idOf lf b ≠ some j

lemma filterLoop_nil {lf : String} {fb : Option (Item → DataFrame → Bool)}
    {df : DataFrame} {seen : List String} :
    filterLoop lf fb df [] seen = [] := rfl

lemma filterLoop_cons_some {lf : String} {fb : Option (Item → DataFrame → Bool)}
    {df : DataFrame} {item : Item} {jid : String} (rest : List Item)
    (seen : List String) (hid : idOf lf item = some jid) :
    filterLoop lf fb df (item :: rest) seen =
      if jid ∈ seen then filterLoop lf fb df rest seen
      else item :: filterLoop lf fb df rest (jid :: seen) := by
  show (match idOf lf item with
    | some jid =>
      if jid ∈ seen then filterLoop lf fb df rest seen
      else item :: filterLoop lf fb df rest (jid :: seen)
    | none =>
      match fb with
      | some f =>
        if f item df then item :: filterLoop lf fb df rest seen
        else filterLoop lf fb df rest seen
      | none => filterLoop lf fb df rest seen) = _
  rw [hid]

lemma filterLoop_cons_none_some {lf : String} {f : Item → DataFrame → Bool}
    {df : DataFrame} {item : Item} (rest : List Item) (seen : List String)
    (hid : idOf lf item = none) :
    filterLoop lf (some f) df (item :: rest) seen =
      if f item df then item :: filterLoop lf (some f) df rest seen
      else filterLoop lf (some f) df rest seen := by
  show (match idOf lf item with
    | some jid =>
      if jid ∈ seen then filterLoop lf (some f) df rest seen
      else item :: filterLoop lf (some f) df rest (jid :: seen)
    | none =>
      if f item df then item :: filterLoop lf (some f) df rest seen
      else filterLoop lf (some f) df rest seen) = _
  rw [hid]

lemma filterLoop_cons_none_none {lf : String} {df : DataFrame} {item : Item}
    (rest : List Item) (seen : List String) (hid : idOf lf item = none) :
    filterLoop lf none df (item :: rest) seen = filterLoop lf none df rest seen := by
  show (match idOf lf item with
    | some jid =>
      if jid ∈ seen then filterLoop lf none df rest seen
      else item :: filterLoop lf none df rest (jid :: seen)
    | none => filterLoop lf none df rest seen) = _
  rw [hid]

lemma filterLoop_fresh {lf : String} {fb : Option (Item → DataFrame → Bool)}
    {df : DataFrame} :
    ∀ {items : List Item} {seen : List String} {it : Item} {j : String},
      it ∈ filterLoop lf fb df items seen → idOf lf it = some j → j ∉ seen := by
  intro items
  induction items with
  | nil => intro seen it j h; simp [filterLoop_nil] at h
  | cons item rest ih =>
    intro seen it j h hj
    rcases hid : idOf lf item with _ | jid
    · rcases fb with _ | f
      · rw [filterLoop_cons_none_none rest seen hid] at h
        exact ih h hj
      · by_cases hcond : f item df = true
        · rw [filterLoop_cons_none_some rest seen hid, if_pos hcond] at h
          rcases List.mem_cons.mp h with rfl | h'
          · rw [hid] at hj; exact absurd hj (by simp)
          · exact ih h' hj
        · rw [filterLoop_cons_none_some rest seen hid, if_neg hcond] at h
          exact ih h hj
    · rw [filterLoop_cons_some rest seen hid] at h
      by_cases hmem : jid ∈ seen
      · rw [if_pos hmem] at h
        exact ih h hj
      · rw [if_neg hmem] at h
        rcases List.mem_cons.mp h with rfl | h'
        · rw [hid] at hj
          obtain rfl : jid = j := by simpa using hj
          exact hmem
        · have := ih h' hj
          exact fun hc => this (List.mem_cons_of_mem _ hc)

lemma filterLoop_pairwise {lf : String} {fb : Option (Item → DataFrame → Bool)}
    {df : DataFrame} :
    ∀ (items : List Item) (seen : List String),
      List.Pairwise (DistinctIds lf) (filterLoop lf fb df items seen) := by
  intro items
  induction items with
  | nil => intro seen; simp [filterLoop_nil]
  | cons item rest ih =>
    intro seen
    rcases hid : idOf lf item with _ | jid
    · rcases fb with _ | f
      · rw [filterLoop_cons_none_none rest seen hid]
        exact ih seen
      · by_cases hcond : f item df = true
        · rw [filterLoop_cons_none_some rest seen hid, if_pos hcond]
          refine List.pairwise_cons.mpr ⟨?_, ih seen⟩
          intro b _ j hj
          rw [hid] at hj
          exact absurd hj (by simp)
        · rw [filterLoop_cons_none_some rest seen hid, if_neg hcond]
          exact ih seen
    · rw [filterLoop_cons_some rest seen hid]
      by_cases hmem : jid ∈ seen
      · rw [if_pos hmem]
        exact ih seen
      · rw [if_neg hmem]
        refine List.pairwise_cons.mpr ⟨?_, ih _⟩
        intro b hb j hj hbj
        rw [hid] at hj
        obtain rfl : jid = j := by simpa using hj
        exact filterLoop_fresh hb hbj (List.mem_cons_self _ _)

lemma filterLoop_sublist {lf : String} {fb : Option (Item → DataFrame → Bool)}
    {df : DataFrame} :
    ∀ (items : List Item) (seen : List String),
      List.Sublist (filterLoop lf fb df items seen) items := by
  intro items
  induction items with
  | nil => intro seen; simp [filterLoop_nil]
  | cons item rest ih =>
    intro seen
    rcases hid : idOf lf item with _ | jid
    · rcases fb with _ | f
      · rw [filterLoop_cons_none_none rest seen hid]
        exact (ih seen).cons item
      · by_cases hcond : f item df = true
        · rw [filterLoop_cons_none_some rest seen hid, if_pos hcond]
          exact (ih seen).cons₂ item
        · rw [filterLoop_cons_none_some rest seen hid, if_neg hcond]
          exact (ih seen).cons item
    · rw [filterLoop_cons_some rest seen hid]
      by_cases hmem : jid ∈ seen
      · rw [if_pos hmem]
        exact (ih seen).cons item
      · rw [if_neg hmem]
        exact (ih _).cons₂ item

lemma filterLoop_none_mem {lf : String} {fb : Option (Item → DataFrame → Bool)}
    {df : DataFrame} :
    ∀ {items : List Item} {seen : List String} {it : Item},
      it ∈ filterLoop lf fb df items seen → idOf lf it = none →
      ∃ f, fb = some f ∧ f it df = true := by
  intro items
  induction items with
  | nil => intro seen it h; simp [filterLoop_nil] at h
  | cons item rest ih =>
    intro seen it h hid
    rcases hid' : idOf lf item with _ | jid
    · rcases fb with _ | f
      · rw [filterLoop_cons_none_none rest seen hid'] at h
        exact ih h hid
      · by_cases hcond : f item df = true
        · rw [filterLoop_cons_none_some rest seen hid', if_pos hcond] at h
          rcases List.mem_cons.mp h with rfl | h'
          · exact ⟨f, rfl, hcond⟩
          · exact ih h' hid
        · rw [filterLoop_cons_none_some rest seen hid', if_neg hcond] at h
          exact ih h hid
    · rw [filterLoop_cons_some rest seen hid'] at h
      by_cases hmem : jid ∈ seen
      · rw [if_pos hmem] at h
        exact ih h hid
      · rw [if_neg hmem] at h
        rcases List.mem_cons.mp h with rfl | h'
        · rw [hid'] at hid; exact absurd hid (by simp)
        · exact ih h' hid

lemma filterLoop_none_accept {lf : String} {df : DataFrame}
    {f : Item → DataFrame → Bool} :
    ∀ {items : List Item} {seen : List String} {it : Item},
      it ∈ items → idOf lf it = none → f it df = true →
      it ∈ filterLoop lf (some f) df items seen := by
  intro items
  induction items with
  | nil => intro seen it h; simp at h
  | cons item rest ih =>
    intro seen it hmem hid hf
    rcases List.mem_cons.mp hmem with rfl | hmem'
    · rw [filterLoop_cons_none_some rest seen hid, if_pos hf]
      exact List.mem_cons_self _ _
    · rcases hid' : idOf lf item with _ | jid
      · by_cases hcond : f item df = true
        · rw [filterLoop_cons_none_some rest seen hid', if_pos hcond]
          exact List.mem_cons_of_mem _ (ih hmem' hid hf)
        · rw [filterLoop_cons_none_some rest seen hid', if_neg hcond]
          exact ih hmem' hid hf
      · rw [filterLoop_cons_some rest seen hid']
        by_cases hmem2 : jid ∈ seen
        · rw [if_pos hmem2]
          exact ih hmem' hid hf
        · rw [if_neg hmem2]
          exact List.mem_cons_of_mem _ (ih hmem' hid hf)

lemma filterLoop_fix {lf : String} {fb : Option (Item → DataFrame → Bool)}
    {df : DataFrame} :
    ∀ {l : List Item} {seen : List String},
      (∀ it ∈ l, ∀ j, idOf lf it = some j → j ∉ seen) →
      List.Pairwise (DistinctIds lf) l →
      (∀ it ∈ l, idOf lf it = none → ∃ f, fb = some f ∧ f it df = true) →
      filterLoop lf fb df l seen = l := by
  intro l
  induction l with
  | nil => intro seen _ _ _; exact filterLoop_nil
  | cons item rest ih =>
    intro seen h1 h2 h3
    obtain ⟨hR, h2'⟩ := List.pairwise_cons.mp h2
    rcases hid : idOf lf item with _ | jid
    · obtain ⟨f, hfb, hf⟩ := h3 item (List.mem_cons_self _ _) hid
      subst hfb
      rw [filterLoop_cons_none_some rest seen hid, if_pos hf]
      congr 1
      exact ih (fun it h => h1 it (List.mem_cons_of_mem _ h)) h2'
        (fun it h => h3 it (List.mem_cons_of_mem _ h))
    · rw [filterLoop_cons_some rest seen hid,
        if_neg (h1 item (List.mem_cons_self _ _) jid hid)]
      congr 1
      refine ih (fun it hit j hj => ?_) h2'
        (fun it h => h3 it (List.mem_cons_of_mem _ h))
      intro hc
      rcases List.mem_cons.mp hc with rfl | hc'
      · exact hR it hit j hid hj
      · exact h1 it (List.mem_cons_of_mem _ hit) j hj hc'

/-- C1: the batch returned by the Deduplicator contains no item whose
extracted identity is extractable from any existing-dataset link, and
no two returned items share an extractable identity. -/
theorem filter_by_job_id_no_duplicates (items : List Item) (df : DataFrame)
    (lf : String) (fb : Option (Item → DataFrame → Bool)) :
    (∀ it ∈ filter_by_job_id items df lf fb, ∀ j, idOf lf it = some j →
      ∀ l ∈ df.col lf, extract_job_id l ≠ some j) ∧
    List.Pairwise (DistinctIds lf) (filter_by_job_id items df lf fb) := by
  constructor
  · intro it hit j hj l hl he
    exact filterLoop_fresh hit hj (collectIds_mem.mpr ⟨l, hl, he⟩)
  · exact filterLoop_pairwise items _

/-- Witness for C1: on the demo batch, the accepted item with identity
1234567890 shows that no existing-dataset link carries that identity. -/
theorem filter_by_job_id_no_duplicates_witness :
    extract_job_id "https://x/view/w-0000000000" ≠ some "1234567890" :=
  (filter_by_job_id_no_duplicates demoItems demoDf "link" none).1
    (.str "https://x/view/x-1234567890") (by decide) "1234567890" (by decide)
    "https://x/view/w-0000000000" (by decide)

/-- C7: the Deduplicator is idempotent — filtering its own output once
more against the same existing dataset returns that output unchanged. -/
theorem filter_by_job_id_idempotent (items : List Item) (df : DataFrame)
    (lf : String) (fb : Option (Item → DataFrame → Bool)) :
    filter_by_job_id (filter_by_job_id items df lf fb) df lf fb =
      filter_by_job_id items df lf fb := by
  unfold filter_by_job_id
  exact filterLoop_fix (fun it hit j hj => filterLoop_fresh hit hj)
    (filterLoop_pairwise items _) (fun it hit hid => filterLoop_none_mem hit hid)

/-- C8: an item without an extractable identity is accepted iff a
fallback predicate is supplied and approves it against the original
existing dataset; with no fallback such items are always dropped. -/
theorem filter_by_job_id_fallback (items : List Item) (df : DataFrame)
    (lf : String) (fb : Option (Item → DataFrame → Bool)) (it : Item)
    (hmem : it ∈ items) (hid : idOf lf it = none) :
    it ∈ filter_by_job_id items df lf fb ↔
      ∃ f, fb = some f ∧ f it df = true := by
  constructor
  · exact fun h => filterLoop_none_mem h hid
  · rintro ⟨f, rfl, hf⟩
    exact filterLoop_none_accept hmem hid hf

/-- Witness for C8: an identity-less item together with an
always-true fallback predicate is accepted. -/
theorem filter_by_job_id_fallback_witness :
    Item.dict [] ∈ filter_by_job_id [Item.dict []] demoDf "link"
      (some fun _ _ => true) :=
  (filter_by_job_id_fallback [Item.dict []] demoDf "link"
      (some fun _ _ => true) (Item.dict []) (by simp) (by decide)).mpr
    ⟨fun _ _ => true, rfl, rfl⟩

/-- C10: the Deduplicator preserves batch order — its output is a
subsequence of the input batch. -/
theorem filter_by_job_id_sublist (items : List Item) (df : DataFrame)
    (lf : String) (fb : Option (Item → DataFrame → Bool)) :
    List.Sublist (filter_by_job_id items df lf fb) items :=
  filterLoop_sublist items _

/-- C3: when the candidate detail-fetch set computed by the
Deduplicator is empty (every search-dataset link already has a detail
record), the detail stage emits the "no new work" message and never
invokes the detail feed. -/
theorem scrape_job_postings_no_new_work (job_search_df job_posting_df : DataFrame)
    (h : filter_by_job_id ((job_search_df.col "link").map Item.str)
      job_posting_df "link" (some url_fallback_filter) = []) :
    scrape_job_postings job_search_df job_posting_df =
      [.logStarting, .logNoNewLinks] ∧
    ∀ us, ScrapeEvent.invokeDetailFeed us ∉
      scrape_job_postings job_search_df job_posting_df := by
  have htrace : scrape_job_postings job_search_df job_posting_df =
      [.logStarting, .logNoNewLinks] := by
    unfold scrape_job_postings
    rw [h]
    rfl
  refine ⟨htrace, ?_⟩
  intro us hmem
  rw [htrace] at hmem
  rcases List.mem_cons.mp hmem with h' | h'
  · exact ScrapeEvent.noConfusion h'
  · rcases List.mem_cons.mp h' with h'' | h''
    · exact ScrapeEvent.noConfusion h''
    · simp at h''

/-- Witness for C3: a search dataset whose single link already has a
detail record yields an empty candidate set, so the stage stops with
the "no new work" trace. -/
theorem scrape_job_postings_no_new_work_witness :
    scrape_job_postings demoDf demoDf = [.logStarting, .logNoNewLinks] :=
  (scrape_job_postings_no_new_work demoDf demoDf (by decide)).1

/-- C4 counterexample: with search and detail stages succeeding and the
first scraper-cleanup call raising, `update_database` re-raises the
teardown error to the caller (the cleanup calls sit inside the `try`
block, so the claim "teardown failures are not propagated" is false). -/
theorem update_database_teardown_propagates :
    (update_database (.ok ()) (.ok ()) (.error "boom") (.ok ())).2 =
      .error "boom" ∧
    (update_database (.ok ()) (.ok ()) (.error "boom") (.ok ())).2 ≠
      Except.ok () :=
  ⟨rfl, fun h => Except.noConfusion h⟩

/-- C4 (amended): an exception raised by any step of the run — the
search feed, the detail feed, or either scraper-cleanup call — is
emitted to the progress channel and re-raised to the caller. -/
theorem update_database_error_semantics
    (s p a b : Except String Unit) (e : String)
    (h : s = .error e ∨ (s = .ok () ∧ p = .error e) ∨
      (s = .ok () ∧ p = .ok () ∧ a = .error e) ∨
      (s = .ok () ∧ p = .ok () ∧ a = .ok () ∧ b = .error e)) :
    (update_database s p a b).2 = .error e ∧
    UpdateEvent.logError e ∈ (update_database s p a b).1 := by
  rcases h with rfl | ⟨rfl, rfl⟩ | ⟨rfl, rfl, rfl⟩ | ⟨rfl, rfl, rfl, rfl⟩ <;>
    exact ⟨rfl, by simp [update_database]⟩

/-- Witness for C4: a failing second cleanup call is logged and
re-raised. -/
theorem update_database_error_semantics_witness :
    (update_database (.ok ()) (.ok ()) (.ok ()) (.error "cleanup failed")).2 =
      .error "cleanup failed" ∧
    UpdateEvent.logError "cleanup failed" ∈
      (update_database (.ok ()) (.ok ()) (.ok ()) (.error "cleanup failed")).1 :=
  update_database_error_semantics (.ok ()) (.ok ()) (.ok ())
    (.error "cleanup failed") "cleanup failed"
    (Or.inr (Or.inr (Or.inr ⟨rfl, rfl, rfl, rfl⟩)))

lemma splitSep_nil2 : splitSep [] = [[]] := rfl

lemma splitSep_one (c : Char) : splitSep [c] = [[c]] := rfl

lemma splitSep_two (a b : Char) (r : List Char) :
    splitSep (a :: b :: r) =
      if a = ',' ∧ b = ' ' then [] :: splitSep r
      else
        match splitSep (b :: r) with
        | h :: t => (a :: h) :: t
        | [] => [[a]] := rfl

lemma joinSep_two (x y : List Char) (rest : List (List Char)) :
    joinSep (x :: y :: rest) = x ++ ',' :: ' ' :: joinSep (y :: rest) := rfl

lemma hasSep_cons₂ {a b : Char} {k : List Char}
    (h : hasSep (a :: b :: k) = false) :
    ¬(a = ',' ∧ b = ' ') ∧ hasSep (b :: k) = false := by
  rw [hasSep, substrIn, Bool.or_eq_false_iff] at h
  obtain ⟨h1, h2⟩ := h
  refine ⟨?_, h2⟩
  rintro ⟨rfl, rfl⟩
  simp [startsWithL] at h1

lemma splitSep_append {k : List Char} (r : List Char)
    (h : hasSep k = false) :
    splitSep (k ++ ',' :: ' ' :: r) = k :: splitSep r := by
  induction k with
  | nil =>
    rw [List.nil_append, splitSep_two, if_pos ⟨rfl, rfl⟩]
  | cons a k' ih =>
    cases k' with
    | nil =>
      rw [List.cons_append, List.nil_append, splitSep_two,
        if_neg (by rintro ⟨-, h'⟩; exact absurd h' (by decide)),
        splitSep_two, if_pos ⟨rfl, rfl⟩]
    | cons b k'' =>
      obtain ⟨hno, hrest⟩ := hasSep_cons₂ h
      rw [List.cons_append, List.cons_append, splitSep_two, if_neg hno,
        show (b :: (k'' ++ ',' :: ' ' :: r) : List Char) =
          (b :: k'') ++ ',' :: ' ' :: r from rfl,
        ih hrest]

lemma splitSep_noSep {k : List Char} (h : hasSep k = false) :
    splitSep k = [k] := by
  induction k with
  | nil => rfl
  | cons a k' ih =>
    cases k' with
    | nil => rfl
    | cons b k'' =>
      obtain ⟨hno, hrest⟩ := hasSep_cons₂ h
      rw [splitSep_two, if_neg hno, ih hrest]

lemma splitSep_joinSep {ks : List (List Char)} (hne : ks ≠ [])
    (h : ∀ k ∈ ks, hasSep k = false) :
    splitSep (joinSep ks) = ks := by
  induction ks with
  | nil => exact absurd rfl hne
  | cons x rest ih =>
    cases rest with
    | nil => exact splitSep_noSep (h x (List.mem_cons_self _ _))
    | cons y rest' =>
      rw [joinSep_two, splitSep_append _ (h x (List.mem_cons_self _ _)),
        ih (by simp) (fun k hk => h k (List.mem_cons_of_mem _ hk))]

lemma joinSep_ne_nil {ks : List (List Char)} (hne : ks ≠ [])
    (h : ∀ k ∈ ks, k ≠ []) : joinSep ks ≠ [] := by
  cases ks with
  | nil => exact absurd rfl hne
  | cons x rest =>
    cases rest with
    | nil => exact h x (List.mem_cons_self _ _)
    | cons y rest' =>
      rw [joinSep_two]
      intro hcontra
      rcases List.append_eq_nil.mp hcontra with ⟨-, h2⟩
      exact List.noConfusion h2

lemma string_data_ne {k : String} (h : k ≠ "") : k.data ≠ [] := by
  intro hd
  apply h
  cases k with
  | mk l =>
    simp only [String.data] at hd
    subst hd
    rfl

lemma string_mk_eq_empty {l : List Char} : String.mk l = "" ↔ l = [] := by
  constructor
  · intro h
    simpa using congrArg String.data h
  · rintro rfl
    rfl

lemma find_matched_keywords_eq (kws : List String) (desc : String) :
    find_matched_keywords kws desc =
      if kws.filter (fun k => strKwIn k desc) = [] then ""
      else String.mk (joinSep ((kws.filter
        (fun k => strKwIn k desc)).map String.data)) := rfl

lemma calculate_score_eq (mk : String) :
    calculate_score mk = if mk = "" then 0 else (splitSep mk.data).length := rfl

lemma find_jobs_by_keywords_eq (rows : List JobRow) (kws : List String)
    (loc : Option String) :
    find_jobs_by_keywords rows kws loc =
      List.insertionSort scoreGE
        (((score_job_postings rows kws loc).filter
          (fun r => decide (0 < r.score))).map toResultRow) := rfl

/-- C5 counterexample: a keyword containing the join separator `", "`
inflates the split-based score — the code scores 2 while exactly one
keyword matched, so "score equals the number of matched keywords"
fails as stated. -/
theorem score_job_postings_counterexample :
    ¬ ∀ sr ∈ score_job_postings
        [(⟨"l", "t", "c", "jl", "x", "we need a, b here"⟩ : JobRow)]
        ["a, b"] none,
      sr.score = (["a, b"].filter fun k =>
        strKwIn k sr.row.job_description).length := by decide

/-- C5 (amended): provided no keyword is empty or contains the
separator `", "`, every scored record carries exactly the matched
keywords (case-insensitive substring matches against the long-text
field) joined with `", "`, and a score equal to their number. -/
theorem score_job_postings_spec (rows : List JobRow) (keywords : List String)
    (loc : Option String)
    (hkw : ∀ k ∈ keywords, k ≠ "" ∧ hasSep k.data = false) :
    ∀ sr ∈ score_job_postings rows keywords loc,
      sr.matched_keywords = String.mk (joinSep ((keywords.filter
        (fun k => strKwIn k sr.row.job_description)).map String.data)) ∧
      sr.score = (keywords.filter
        (fun k => strKwIn k sr.row.job_description)).length := by
  intro sr hsr
  simp only [score_job_postings] at hsr
  obtain ⟨r, hr, rfl⟩ := List.mem_map.mp hsr
  show find_matched_keywords keywords r.job_description =
      String.mk (joinSep ((keywords.filter
        (fun k => strKwIn k r.job_description)).map String.data)) ∧
    calculate_score (find_matched_keywords keywords r.job_description) =
      (keywords.filter (fun k => strKwIn k r.job_description)).length
  by_cases hM : keywords.filter (fun k => strKwIn k r.job_description) = []
  · rw [find_matched_keywords_eq, if_pos hM, hM]
    exact ⟨rfl, rfl⟩
  · have hsub : ∀ k ∈ keywords.filter (fun k => strKwIn k r.job_description),
        k ∈ keywords := fun k hk => (List.mem_filter.mp hk).1
    have hdata_ne : ∀ l ∈ (keywords.filter
        (fun k => strKwIn k r.job_description)).map String.data, l ≠ [] := by
      intro l hl
      obtain ⟨k, hk, rfl⟩ := List.mem_map.mp hl
      exact string_data_ne (hkw k (hsub k hk)).1
    have hdata_nosep : ∀ l ∈ (keywords.filter
        (fun k => strKwIn k r.job_description)).map String.data,
        hasSep l = false := by
      intro l hl
      obtain ⟨k, hk, rfl⟩ := List.mem_map.mp hl
      exact (hkw k (hsub k hk)).2
    have hmap_ne : (keywords.filter
        (fun k => strKwIn k r.job_description)).map String.data ≠ [] := by
      intro hc
      exact hM (List.map_eq_nil_iff.mp hc)
    have hfm : find_matched_keywords keywords r.job_description =
        String.mk (joinSep ((keywords.filter
          (fun k => strKwIn k r.job_description)).map String.data)) := by
      rw [find_matched_keywords_eq, if_neg hM]
    refine ⟨hfm, ?_⟩
    rw [hfm, calculate_score_eq,
      if_neg (fun hcontra => joinSep_ne_nil hmap_ne hdata_ne
        (string_mk_eq_empty.mp hcontra))]
    show (splitSep (joinSep ((keywords.filter
      (fun k => strKwIn k r.job_description)).map String.data))).length = _
    rw [splitSep_joinSep hmap_ne hdata_nosep, List.length_map]

/-- Witness for C5: the spec's own example — matched keywords
`"python, react"`, score 2. -/
theorem score_job_postings_spec_witness :
    ∃ sr ∈ score_job_postings [exampleRow] ["python", "react", "java"] none,
      sr.matched_keywords = "python, react" ∧ sr.score = 2 := by
  have h := score_job_postings_spec [exampleRow] ["python", "react", "java"] none
    (by decide) ⟨exampleRow, "python, react", 2⟩ (by decide)
  exact ⟨⟨exampleRow, "python, react", 2⟩, by decide,
    h.1.trans (by decide), h.2.trans (by decide)⟩

/-- C6: `find_jobs_by_keywords` returns exactly the projections of
scored records with positive score (no score-0 record appears), sorted
by descending score. -/
theorem find_jobs_by_keywords_spec (rows : List JobRow)
    (keywords : List String) (loc : Option String) :
    (∀ r, r ∈ find_jobs_by_keywords rows keywords loc ↔
      ∃ s ∈ score_job_postings rows keywords loc,
        0 < s.score ∧ r = toResultRow s) ∧
    (∀ r ∈ find_jobs_by_keywords rows keywords loc, 0 < r.score) ∧
    List.Sorted scoreGE (find_jobs_by_keywords rows keywords loc) := by
  have hmem : ∀ r, r ∈ find_jobs_by_keywords rows keywords loc ↔
      ∃ s ∈ score_job_postings rows keywords loc,
        0 < s.score ∧ r = toResultRow s := by
    intro r
    rw [find_jobs_by_keywords_eq]
    rw [(List.perm_insertionSort scoreGE _).mem_iff]
    rw [List.mem_map]
    constructor
    · rintro ⟨s, hs, rfl⟩
      obtain ⟨hs1, hs2⟩ := List.mem_filter.mp hs
      exact ⟨s, hs1, by simpa using hs2, rfl⟩
    · rintro ⟨s, hs, hpos, rfl⟩
      exact ⟨s, List.mem_filter.mpr ⟨hs, by simpa using hpos⟩, rfl⟩
  refine ⟨hmem, ?_, ?_⟩
  · intro r hr
    obtain ⟨s, -, hpos, rfl⟩ := (hmem r).mp hr
    exact hpos
  · rw [find_jobs_by_keywords_eq]
    exact List.sorted_insertionSort scoreGE _

/-- Witness for C6: the projection of the positively scored example
record is a member of the query result. -/
theorem find_jobs_by_keywords_spec_witness :
    (⟨2, "python, react", "link1", "title1", "company1", "jloc1"⟩ : ResultRow) ∈
      find_jobs_by_keywords [exampleRow, exampleRow2]
        ["python", "react", "java"] none :=
  ((find_jobs_by_keywords_spec [exampleRow, exampleRow2]
      ["python", "react", "java"] none).1 _).mpr
    ⟨⟨exampleRow, "python, react", 2⟩, by decide, by decide, by decide⟩

end DreamJobSearch
